import Mathlib

/-!
Shallow embedding of the `bread` Go library (the `Bread.Eat` / `Bread.eat`
ingestion engine) and proofs about it.

The engine reads a byte stream through a `bufio.Reader`, assembles chunks
(an initial read of at most `BufferSize` bytes, optionally extended with
`ReadBytes(Delimiter)` up to and including the next delimiter byte), and hands
each chunk to a bounded pool of worker goroutines gated by a buffered channel
`workerChan` of capacity `Workers`.

Bytes are modelled as `Nat` (no byte arithmetic occurs in the engine, only
equality tests against the delimiter).  A byte source is modelled as the byte
sequence it delivers followed by how it terminates: clean end-of-source
(`io.EOF`) or a read failure carrying an error identity.  Reads through
`bufio.Reader` over such a source deliver `min (len buffer) remaining` bytes
while data remains, and the terminal condition once the data is exhausted.
-/

/-- Error values the engine can return, mirroring the Go `error` results:
the four validation sentinel errors, an arbitrary non-EOF failure produced by
the underlying reader (identified by a code so that verbatim propagation is
expressible), and `ctx.Err()` for a cancelled context. -/
inductive GoErr where
  | missingContext
  | nilReader
  | missingWorkerFunc
  | missingBufferSize
  | ioErr (code : Nat)
  | ctxCanceled
  deriving DecidableEq

/-- Result of a read operation seen inside the loop: `io.EOF`, or some other
failure (carrying its identity). -/
inductive ReadErr where
  | eof
  | fail (code : Nat)
  deriving DecidableEq

/-- A byte source: the bytes it will deliver, then its terminal condition.
`tailErr = none` means reads past the data report `io.EOF` (clean
exhaustion); `tailErr = some c` means they report the non-EOF failure `c`. -/
structure Source where
  data : List Nat
  tailErr : Option Nat
  deriving DecidableEq

/-- The read error reported once a source's data is exhausted. -/
def exitOf : Option Nat → ReadErr
  | none => ReadErr.eof
  | some c => ReadErr.fail c

/-- Model of `r.ReadBytes(delim)` applied to the remaining bytes `l`:
when the delimiter occurs in `l`, returns the consumed part (up to and
including the first delimiter) and the rest; when it does not occur,
returns `none` (in Go: all remaining bytes together with the terminal
error, `io.EOF` or the source's failure). -/
def readBytesSplit (delim : Nat) : List Nat → Option (List Nat × List Nat)
  | [] => none
  | b :: rest =>
    if b = delim then some ([b], rest)
    else
      match readBytesSplit delim rest with
      | some (pre, post) => some (b :: pre, post)
      | none => none

/-- Model of the per-iteration statement
`select { case <-ctx.Done(): break; default: }` in `Bread.eat`.
In Go, `break` inside a `select` terminates the `select` statement only, not
the enclosing `for` loop, so both arms fall through to the rest of the loop
body: the statement has no effect on control flow either way. -/
def ctxSelect (canceled : Bool) : Unit :=
  if canceled then () else ()

/-- What one run of the read loop in `Bread.eat` produces: the chunks handed
to worker goroutines in dispatch order, the number of `r.Read` calls
performed, and the read error that terminated the loop (the named return
`err` at the moment the loop breaks). -/
structure LoopOut where
  chunks : List (List Nat)
  reads : Nat
  exit : ReadErr
  deriving DecidableEq

/-- The read loop of `Bread.eat`, as a function of the remaining source
bytes, with an explicit structural-recursion fuel (each loop iteration
consumes one unit; `eatLoop` supplies enough fuel for any source, and the
lemmas below hold for every sufficient fuel).  Each iteration models, in
order: the cancellation
`select` (a no-op, see `ctxSelect`); `n, err = r.Read(*buffer)` — on a
non-empty remainder this delivers `min bufferSize remaining` bytes (at
least one), on an empty remainder it reports the source's terminal
condition and the loop breaks; then, unless `NoDelimiter`,
`complement, err = r.ReadBytes(b.Delimiter)` — a non-EOF failure there
breaks the loop without dispatching the buffer, otherwise the complement
(ending with the delimiter, or the whole remainder at EOF) is appended;
finally the chunk is sent to a worker goroutine.  `Eat` rejects
`BufferSize = 0` before the loop runs, so the initial read is written
`b :: rest.take (bufferSize - 1)`, which agrees with `take bufferSize` for
every positive `bufferSize`. -/
def eatLoopF (bufferSize delim : Nat) (noDelimiter canceled : Bool)
    (tailErr : Option Nat) : Nat → List Nat → LoopOut
  | 0, _ => { chunks := [], reads := 0, exit := ReadErr.eof }
  | _ + 1, [] =>
    let _sel := ctxSelect canceled
    { chunks := [], reads := 1, exit := exitOf tailErr }
  | fuel + 1, b :: rest =>
    let _sel := ctxSelect canceled
    let first := b :: rest.take (bufferSize - 1)
    let rem1 := rest.drop (bufferSize - 1)
    if noDelimiter then
      let out := eatLoopF bufferSize delim noDelimiter canceled tailErr fuel rem1
      { chunks := first :: out.chunks, reads := out.reads + 1, exit := out.exit }
    else
      match readBytesSplit delim rem1 with
      | some (comp, rem2) =>
        let out := eatLoopF bufferSize delim noDelimiter canceled tailErr fuel rem2
        { chunks := (first ++ comp) :: out.chunks, reads := out.reads + 1,
          exit := out.exit }
      | none =>
        match tailErr with
        | some c => { chunks := [], reads := 1, exit := ReadErr.fail c }
        | none =>
          let out := eatLoopF bufferSize delim noDelimiter canceled tailErr fuel []
          { chunks := (first ++ rem1) :: out.chunks,
            reads := out.reads + 1, exit := out.exit }

/-- The read loop of `Bread.eat` on the remaining source bytes `rem`.
`rem.length + 1` units of fuel always suffice because every iteration on a
non-empty remainder consumes at least one source byte. -/
def eatLoop (bufferSize delim : Nat) (noDelimiter canceled : Bool)
    (tailErr : Option Nat) (rem : List Nat) : LoopOut :=
  eatLoopF bufferSize delim noDelimiter canceled tailErr (rem.length + 1) rem

/-- Default value of the `Delimiter` member (`DefaultDelimiter byte = '\n'`). -/
def DefaultDelimiter : Nat := 10

/-- Default value of the `Workers` member (`DefaultWorkers = 1`). -/
def DefaultWorkers : Nat := 1

/-- The `Bread` configuration struct.  `hasWorkerFunc` records whether
`WorkerFunc` is non-nil (the engine's control flow depends only on its
presence; the callback has no result channel back to the engine). -/
structure Bread where
  hasWorkerFunc : Bool
  Workers : Nat
  BufferSeed : Nat
  BufferSize : Nat
  Delimiter : Nat
  NoDelimiter : Bool
  deriving DecidableEq

/-- Observable outcome of a call to `Bread.Eat`: the chunks delivered to the
worker callback in dispatch order, the number of reads performed on the
source, and the returned `error` (`none` is Go `nil`). -/
structure EatOut where
  chunks : List (List Nat)
  reads : Nat
  result : Option GoErr
  deriving DecidableEq

/-- The effective delimiter after the defaulting step
`if b.Delimiter == 0 { b.Delimiter = DefaultDelimiter }`. -/
def Bread.effDelimiter (b : Bread) : Nat :=
  if b.Delimiter = 0 then DefaultDelimiter else b.Delimiter

/-- The effective worker count after the defaulting step
`if b.Workers == 0 { b.Workers = DefaultWorkers }`, which is the capacity
of the gate channel `workerChan := make(chan struct{}, b.Workers)`. -/
def Bread.gateCapacity (b : Bread) : Nat :=
  if b.Workers = 0 then DefaultWorkers else b.Workers

/-- Model of `Bread.Eat` followed by `Bread.eat`.  `hasCtx` records whether
`ctx == nil` was false; `canceled` records whether the context's `Done`
channel is closed during the run.  Validation happens in the source's order
(context, reader, worker function, buffer size) before any read.  After the
loop, the final `select` in `eat` waits on `doneChan` (all workers finished)
and on `ctx.Done()`: on a cancelled context the modelled run takes the
`<-ctx.Done()` arm, drains, and returns `ctx.Err()`; otherwise the loop's
terminating read error is returned and `Eat` converts `io.EOF` to `nil`. -/
def Bread.Eat (b : Bread) (hasCtx canceled : Bool) (src : Option Source) :
    EatOut :=
  if hasCtx = false then { chunks := [], reads := 0, result := some GoErr.missingContext }
  else
    match src with
    | none => { chunks := [], reads := 0, result := some GoErr.nilReader }
    | some s =>
      if b.hasWorkerFunc = false then
        { chunks := [], reads := 0, result := some GoErr.missingWorkerFunc }
      else if b.BufferSize = 0 then
        { chunks := [], reads := 0, result := some GoErr.missingBufferSize }
      else
        let out := eatLoop b.BufferSize b.effDelimiter b.NoDelimiter canceled
          s.tailErr s.data
        let res : Option GoErr :=
          if canceled then some GoErr.ctxCanceled
          else
            match out.exit with
            | ReadErr.eof => none
            | ReadErr.fail c => some (GoErr.ioErr c)
        { chunks := out.chunks, reads := out.reads, result := res }

/-- Bookkeeping for the worker goroutines launched by `Bread.eat`, by phase:
`pending` holds goroutines whose gate slot has been acquired
(`workerChan <- struct{}{}` in the read loop) but whose callback has not yet
started; `running` counts callbacks currently executing inside
`b.WorkerFunc`; `releasing` counts goroutines whose callback has returned
but which have not yet given their slot back (`<-workerChan`). -/
structure GateState where
  pending : Nat
  running : Nat
  releasing : Nat
  deriving DecidableEq

/-- Number of slots of the gate channel `workerChan` currently held: every
launched goroutine holds its slot from the reader's send until its own
final receive, across all three phases. -/
def GateState.inFlight (s : GateState) : Nat :=
  s.pending + s.running + s.releasing

/-- Interleaving semantics of the concurrency gate in `Bread.eat`.
`acquire` is the read loop's send on `workerChan`, a buffered channel of
capacity `w`: it can fire only while fewer than `w` slots are held and it
launches one goroutine.  `start` is a launched goroutine entering
`b.WorkerFunc`; `finish` is the callback returning; `release` is the
goroutine's closing receive `<-workerChan`, freeing its slot. -/
inductive GateStep (w : Nat) : GateState → GateState → Prop
  | acquire (s : GateState) : s.inFlight < w →
      GateStep w s ⟨s.pending + 1, s.running, s.releasing⟩
  | start (p r l : Nat) : GateStep w ⟨p + 1, r, l⟩ ⟨p, r + 1, l⟩
  | finish (p r l : Nat) : GateStep w ⟨p, r + 1, l⟩ ⟨p, r, l + 1⟩
  | release (p r l : Nat) : GateStep w ⟨p, r, l + 1⟩ ⟨p, r, l⟩

/-- Gate states reachable during a run: the interleavings of `GateStep`
starting from the all-idle state in which `Bread.eat` creates
`workerChan`. -/
def GateReachable (w : Nat) (s : GateState) : Prop :=
  Relation.ReflTransGen (GateStep w) ⟨0, 0, 0⟩ s

/-! Basic facts about the model of `r.ReadBytes`. -/

/-- A successful `ReadBytes` consumes at least one byte: what remains is
strictly shorter than its input. -/
theorem readBytesSplit_length_lt {delim : Nat} :
    ∀ {l pre post : List Nat},
      readBytesSplit delim l = some (pre, post) → post.length < l.length := by
  intro l
  induction l with
  | nil => intro pre post h; simp [readBytesSplit] at h
  | cons b rest ih =>
    intro pre post h
    by_cases hb : b = delim
    · simp [readBytesSplit, hb] at h
      simp [← h.2]
    · simp only [readBytesSplit, if_neg hb] at h
      cases hsub : readBytesSplit delim rest with
      | none => rw [hsub] at h; simp at h
      | some pr =>
        rw [hsub] at h
        cases pr with
        | mk pre' post' =>
          simp at h
          have := ih hsub
          simp [← h.2]
          omega

/-- A successful `ReadBytes` splits its input: consumed part followed by
the remainder. -/
theorem readBytesSplit_append {delim : Nat} :
    ∀ {l comp post : List Nat},
      readBytesSplit delim l = some (comp, post) → comp ++ post = l := by
  intro l
  induction l with
  | nil => intro comp post h; simp [readBytesSplit] at h
  | cons b rest ih =>
    intro comp post h
    by_cases hb : b = delim
    · simp [readBytesSplit, hb] at h
      simp [← h.1, ← h.2, hb]
    · simp only [readBytesSplit, if_neg hb] at h
      cases hsub : readBytesSplit delim rest with
      | none => rw [hsub] at h; simp at h
      | some pr =>
        obtain ⟨pre, post2⟩ := pr
        rw [hsub] at h
        simp at h
        have := ih hsub
        simp [← h.1, ← h.2]
        simpa using this

/-- The part consumed by a successful `ReadBytes` ends with the delimiter
and contains it nowhere else. -/
theorem readBytesSplit_shape {delim : Nat} :
    ∀ {l comp post : List Nat},
      readBytesSplit delim l = some (comp, post) →
        ∃ q, comp = q ++ [delim] ∧ delim ∉ q := by
  intro l
  induction l with
  | nil => intro comp post h; simp [readBytesSplit] at h
  | cons b rest ih =>
    intro comp post h
    by_cases hb : b = delim
    · simp [readBytesSplit, hb] at h
      exact ⟨[], by simp [← h.1, hb], by simp⟩
    · simp only [readBytesSplit, if_neg hb] at h
      cases hsub : readBytesSplit delim rest with
      | none => rw [hsub] at h; simp at h
      | some pr =>
        obtain ⟨pre, post2⟩ := pr
        rw [hsub] at h
        simp at h
        obtain ⟨q, hq, hqn⟩ := ih hsub
        refine ⟨b :: q, ?_, ?_⟩
        · simp [← h.1, hq]
        · simp [hqn]
          exact fun e => hb e.symm

/-- The model of `ReadBytes` finds no delimiter exactly when the input
contains none. -/
theorem readBytesSplit_eq_none {delim : Nat} :
    ∀ {l : List Nat}, readBytesSplit delim l = none ↔ delim ∉ l := by
  intro l
  induction l with
  | nil => simp [readBytesSplit]
  | cons b rest ih =>
    by_cases hb : b = delim
    · subst hb
      simp [readBytesSplit]
    · cases hsub : readBytesSplit delim rest with
      | none =>
        have hrest : delim ∉ rest := ih.mp hsub
        simp [readBytesSplit, if_neg hb, hsub, hrest]
        exact fun e => hb e.symm
      | some pr =>
        obtain ⟨pre, post⟩ := pr
        have hrest : delim ∈ rest := by
          by_contra hn
          rw [← ih] at hn
          rw [hn] at hsub
          exact Option.noConfusion hsub
        simp [readBytesSplit, if_neg hb, hsub, hrest]

/-! Facts about the read loop, proved for every sufficient fuel and then
specialised to `eatLoop`. -/

/-- The cancellation flag influences nothing in the loop: the per-iteration
`select` only breaks out of itself, so the loop's entire output is the same
whether or not the context is cancelled. -/
theorem eatLoopF_canceled_irrelevant (bs delim : Nat) (nd cz cz' : Bool)
    (te : Option Nat) :
    ∀ fuel rem, eatLoopF bs delim nd cz te fuel rem =
      eatLoopF bs delim nd cz' te fuel rem := by
  intro fuel
  induction fuel with
  | zero => intro rem; rfl
  | succ fuel ih =>
    intro rem
    cases rem with
    | nil => rfl
    | cons b rest =>
      simp only [eatLoopF, ctxSelect]
      by_cases hnd : nd = true
      · subst hnd
        simp [ih]
      · simp only [Bool.not_eq_true] at hnd
        subst hnd
        simp only [Bool.false_eq_true, if_false]
        cases hsplit : readBytesSplit delim (rest.drop (bs - 1)) with
        | some pr => obtain ⟨comp, rem2⟩ := pr; simp [ih]
        | none =>
          cases te with
          | some c => simp
          | none => simp [ih]

/-- The loop always terminates with the source's terminal read condition:
`io.EOF` on clean exhaustion, the source's failure otherwise. -/
theorem eatLoopF_exit (bs delim : Nat) (nd cz : Bool) (te : Option Nat) :
    ∀ fuel rem, rem.length < fuel →
      (eatLoopF bs delim nd cz te fuel rem).exit = exitOf te := by
  intro fuel
  induction fuel with
  | zero => intro rem h; omega
  | succ fuel ih =>
    intro rem h
    cases rem with
    | nil => simp [eatLoopF]
    | cons b rest =>
      simp only [List.length_cons] at h
      simp only [eatLoopF]
      by_cases hnd : nd = true
      · subst hnd
        have hlen : (rest.drop (bs - 1)).length < fuel := by
          simp only [List.length_drop]; omega
        simp [ih _ hlen]
      · simp only [Bool.not_eq_true] at hnd
        subst hnd
        simp only [Bool.false_eq_true, if_false]
        cases hsplit : readBytesSplit delim (rest.drop (bs - 1)) with
        | some pr =>
          obtain ⟨comp, rem2⟩ := pr
          have h2 := readBytesSplit_length_lt hsplit
          simp only [List.length_drop] at h2
          have hlen : rem2.length < fuel := by omega
          simp [ih _ hlen]
        | none =>
          cases te with
          | some c => simp [exitOf]
          | none =>
            have hlen : ([] : List Nat).length < fuel := by simp; omega
            simp [ih _ hlen]

/-- With the delimiter honoured and a cleanly terminating source, the loop
loses and duplicates nothing: the chunks it dispatches concatenate back to
exactly the remaining source bytes. -/
theorem eatLoopF_flatten (bs delim : Nat) (cz : Bool) :
    ∀ fuel rem, rem.length < fuel →
      ((eatLoopF bs delim false cz none fuel rem).chunks).flatten = rem := by
  intro fuel
  induction fuel with
  | zero => intro rem h; omega
  | succ fuel ih =>
    intro rem h
    cases rem with
    | nil => simp [eatLoopF]
    | cons b rest =>
      simp only [List.length_cons] at h
      simp only [eatLoopF, Bool.false_eq_true, if_false]
      cases hsplit : readBytesSplit delim (rest.drop (bs - 1)) with
      | some pr =>
        obtain ⟨comp, rem2⟩ := pr
        have h2 := readBytesSplit_length_lt hsplit
        simp only [List.length_drop] at h2
        have hlen : rem2.length < fuel := by omega
        have happ := readBytesSplit_append hsplit
        simp only [List.flatten_cons, ih _ hlen]
        rw [List.append_assoc, happ]
        simp [List.take_append_drop]
      | none =>
        have hlen : ([] : List Nat).length < fuel := by simp; omega
        simp only [List.flatten_cons, ih _ hlen]
        simp [List.take_append_drop]

/-- On an exhausted remainder the loop dispatches nothing, whatever the
fuel. -/
theorem eatLoopF_nil_chunks (bs delim : Nat) (nd cz : Bool) (te : Option Nat) :
    ∀ fuel, (eatLoopF bs delim nd cz te fuel []).chunks = [] := by
  intro fuel
  cases fuel with
  | zero => rfl
  | succ fuel => rfl

/-- In `NoDelimiter` mode every dispatched chunk except possibly the final
one has length exactly `bufferSize`: an initial read returns `bufferSize`
bytes whenever at least that many remain, and a shorter read exhausts the
source, making its chunk the final one. -/
theorem eatLoopF_noDelim_lengths (bs delim : Nat) (cz : Bool)
    (te : Option Nat) (hbs : 1 ≤ bs) :
    ∀ fuel rem, rem.length < fuel →
      ∀ c ∈ ((eatLoopF bs delim true cz te fuel rem).chunks).dropLast,
        c.length = bs := by
  intro fuel
  induction fuel with
  | zero => intro rem h; omega
  | succ fuel ih =>
    intro rem h c hc
    cases rem with
    | nil => simp [eatLoopF] at hc
    | cons b rest =>
      simp only [List.length_cons] at h
      simp only [eatLoopF, if_true] at hc
      cases hout : (eatLoopF bs delim true cz te fuel
          (rest.drop (bs - 1))).chunks with
      | nil => rw [hout] at hc; simp at hc
      | cons c0 cs =>
        rw [hout] at hc
        rw [List.dropLast_cons₂] at hc
        rcases List.mem_cons.mp hc with hceq | hctail
        · have hne : rest.drop (bs - 1) ≠ [] := by
            intro hnil
            rw [hnil, eatLoopF_nil_chunks] at hout
            exact List.noConfusion hout
          have hlen : bs - 1 ≤ rest.length := by
            by_contra hlt
            push_neg at hlt
            exact hne (List.drop_eq_nil_of_le (by omega))
          subst hceq
          simp only [List.length_cons, List.length_take]
          omega
        · have hlen : (rest.drop (bs - 1)).length < fuel := by
            simp only [List.length_drop]; omega
          have := ih (rest.drop (bs - 1)) hlen c
          rw [hout] at this
          exact this hctail

/-- With the delimiter honoured, a dispatched chunk can contain the
delimiter byte beyond its first `bufferSize` bytes only as its final byte:
positions at index `bufferSize` or later belong to the `ReadBytes`
complement, which ends at the first delimiter it meets (or contains none
when the source ends first). -/
theorem eatLoopF_delim_position (bs delim : Nat) (cz : Bool)
    (te : Option Nat) (hbs : 1 ≤ bs) :
    ∀ fuel rem, rem.length < fuel →
      ∀ ch ∈ (eatLoopF bs delim false cz te fuel rem).chunks,
        ∀ i, bs ≤ i → i + 1 < ch.length → ch[i]? ≠ some delim := by
  intro fuel
  induction fuel with
  | zero => intro rem h; omega
  | succ fuel ih =>
    intro rem h ch hc i hbi hic
    cases rem with
    | nil => simp [eatLoopF] at hc
    | cons b rest =>
      simp only [List.length_cons] at h
      simp only [eatLoopF, Bool.false_eq_true, if_false] at hc
      have hfirstlen : (b :: rest.take (bs - 1)).length ≤ bs := by
        simp only [List.length_cons, List.length_take]
        omega
      cases hsplit : readBytesSplit delim (rest.drop (bs - 1)) with
      | some pr =>
        obtain ⟨comp, rem2⟩ := pr
        rw [hsplit] at hc
        simp only [List.mem_cons] at hc
        rcases hc with hceq | hctail
        · subst hceq
          obtain ⟨q, hq, hqn⟩ := readBytesSplit_shape hsplit
          set first := b :: rest.take (bs - 1) with hfirst
          have hge : first.length ≤ i := le_trans hfirstlen hbi
          rw [List.getElem?_append_right hge]
          intro hget
          rw [hq] at hget
          have hjlt : i - first.length < q.length := by
            have hflen : (first ++ comp).length = first.length + (q.length + 1) := by
              simp [hq]
            omega
          rw [List.getElem?_append_left hjlt] at hget
          exact hqn (List.getElem?_mem hget)
        · have h2 := readBytesSplit_length_lt hsplit
          simp only [List.length_drop] at h2
          have hlen : rem2.length < fuel := by omega
          exact ih rem2 hlen ch hctail i hbi hic
      | none =>
        rw [hsplit] at hc
        cases te with
        | some code => simp at hc
        | none =>
          simp only [eatLoopF_nil_chunks, List.mem_cons, List.not_mem_nil,
            or_false] at hc
          subst hc
          have hnd : delim ∉ rest.drop (bs - 1) :=
            readBytesSplit_eq_none.mp hsplit
          set first := b :: rest.take (bs - 1) with hfirst
          have hge : first.length ≤ i := le_trans hfirstlen hbi
          rw [List.getElem?_append_right hge]
          intro hget
          exact hnd (List.getElem?_mem hget)

/-- When the source's remainder contains no delimiter, `ReadBytes` extends
the initial read with the whole remainder: the loop dispatches exactly one
chunk holding every remaining byte. -/
theorem eatLoopF_no_delim_single_chunk (bs delim : Nat) (cz : Bool)
    (data : List Nat) (hne : data ≠ []) (hocc : delim ∉ data) :
    ∀ fuel, data.length < fuel →
      (eatLoopF bs delim false cz none fuel data).chunks = [data] := by
  intro fuel h
  cases data with
  | nil => exact absurd rfl hne
  | cons b rest =>
    cases fuel with
    | zero => omega
    | succ fuel =>
      have hsub : delim ∉ rest.drop (bs - 1) := by
        intro hmem
        exact hocc (List.mem_cons_of_mem b (List.mem_of_mem_drop hmem))
      have hsplit : readBytesSplit delim (rest.drop (bs - 1)) = none :=
        readBytesSplit_eq_none.mpr hsub
      simp only [eatLoopF, Bool.false_eq_true, if_false, hsplit,
        eatLoopF_nil_chunks]
      simp [List.take_append_drop]

/-! Facts about the concurrency gate. -/

/-- One step of the gate never pushes the number of held slots above the
channel capacity. -/
theorem gateStep_inFlight_le {w : Nat} {s t : GateState}
    (hs : s.inFlight ≤ w) (h : GateStep w s t) : t.inFlight ≤ w := by
  cases h with
  | acquire _ hlt => simp only [GateState.inFlight] at *; omega
  | start p r l => simp only [GateState.inFlight] at *; omega
  | finish p r l => simp only [GateState.inFlight] at *; omega
  | release p r l => simp only [GateState.inFlight] at *; omega

/-- Invariant: in every reachable gate state at most `w` slots of
`workerChan` are held. -/
theorem gateReachable_inFlight_le {w : Nat} {s : GateState}
    (h : GateReachable w s) : s.inFlight ≤ w := by
  induction h with
  | refl => simp [GateState.inFlight]
  | tail _ hstep ih => exact gateStep_inFlight_le ih hstep

/-! The claims. -/

/-- C1: for every non-empty byte source (modelled by the byte sequence it
delivers before clean exhaustion) and every valid configuration with
`noDelimiter = false`, concatenating all chunks delivered to the processing
callback, in dispatch order, equals the source's byte sequence exactly —
no byte lost, no byte duplicated. -/
theorem claim_C1_no_loss_no_duplication (b : Bread) (data : List Nat)
    (hwf : b.hasWorkerFunc = true) (hbs : b.BufferSize ≠ 0)
    (hnd : b.NoDelimiter = false) (hne : data ≠ []) :
    ((b.Eat true false (some ⟨data, none⟩)).chunks).flatten = data := by
  simp only [Bread.Eat, eatLoop, hwf, hbs, hnd, Bool.true_eq_false,
    if_false, if_neg hbs]
  exact eatLoopF_flatten b.BufferSize b.effDelimiter false (data.length + 1)
    data (Nat.lt_succ_self _)

/-- C1 witness: a concrete run reassembling its source. -/
theorem claim_C1_witness :
    ((Bread.Eat ⟨true, 1, 0, 2, 10, false⟩ true false
        (some ⟨[1, 10, 2, 3], none⟩)).chunks).flatten = [1, 10, 2, 3] :=
  claim_C1_no_loss_no_duplication ⟨true, 1, 0, 2, 10, false⟩ [1, 10, 2, 3]
    rfl (by decide) rfl (by decide)

/-- C2: with `Workers = w` (nonzero), in every reachable state of the
concurrency gate at most `w` processing callbacks are executing at once,
and from a state with `w` units of work in flight no gate step increases
the number in flight: the reader's slot acquisition blocks. -/
theorem claim_C2_worker_bound (b : Bread) (w : Nat) (hw : b.Workers = w)
    (hpos : w ≠ 0) (s : GateState) (h : GateReachable b.gateCapacity s) :
    s.running ≤ w ∧
      (s.inFlight = w → ∀ t, GateStep b.gateCapacity s t →
        ¬ s.inFlight < t.inFlight) := by
  have hcap : b.gateCapacity = w := by
    simp [Bread.gateCapacity, hw, hpos]
  constructor
  · have h1 := gateReachable_inFlight_le h
    rw [hcap] at h1
    simp only [GateState.inFlight] at h1
    omega
  · intro hfull t hstep hlt
    cases hstep with
    | acquire _ hlt2 =>
      rw [hcap] at hlt2
      omega
    | start p r l => simp only [GateState.inFlight] at hlt; omega
    | finish p r l => simp only [GateState.inFlight] at hlt; omega
    | release p r l => simp only [GateState.inFlight] at hlt; omega

/-- C2 witness: the bound instantiated at a concrete configuration and the
initial gate state. -/
theorem claim_C2_witness :
    (⟨0, 0, 0⟩ : GateState).running ≤ 2 ∧
      ((⟨0, 0, 0⟩ : GateState).inFlight = 2 →
        ∀ t, GateStep (Bread.gateCapacity ⟨true, 2, 0, 1, 10, false⟩) ⟨0, 0, 0⟩ t →
          ¬ (⟨0, 0, 0⟩ : GateState).inFlight < t.inFlight) :=
  claim_C2_worker_bound ⟨true, 2, 0, 1, 10, false⟩ 2 rfl (by decide) ⟨0, 0, 0⟩
    Relation.ReflTransGen.refl

/-- C3 as stated is false on the code: with `bufferSize = 2`, delimiter 10
and source `[10, 10]` (the delimiter occurs in the source,
`noDelimiter = false`), the single chunk delivered is `[10, 10]`, which
contains the delimiter byte at position 0 — a non-final position — because
the initial `Read` fills the whole buffer without looking at delimiters. -/
theorem claim_C3_counterexample :
    Bread.effDelimiter ⟨true, 1, 0, 2, 10, false⟩ ∈ ([10, 10] : List Nat) ∧
      ∃ ch ∈ (Bread.Eat ⟨true, 1, 0, 2, 10, false⟩ true false
          (some ⟨[10, 10], none⟩)).chunks,
        ∃ i, i + 1 < ch.length ∧
          ch[i]? = some (Bread.effDelimiter ⟨true, 1, 0, 2, 10, false⟩) :=
  ⟨by decide, [10, 10], by decide, 0, by decide, by decide⟩

/-- C3 (amended): for every source and valid configuration with
`noDelimiter = false`, a chunk can contain the delimiter byte at an index
at or beyond `bufferSize` only as its final byte; interior delimiters can
occur only within a chunk's first `bufferSize` bytes (the initial
fixed-size read, which ignores delimiters). -/
theorem claim_C3_amended_delimiter_position (b : Bread) (data : List Nat)
    (te : Option Nat) (hwf : b.hasWorkerFunc = true) (hbs : b.BufferSize ≠ 0)
    (hnd : b.NoDelimiter = false) (hocc : b.effDelimiter ∈ data) :
    ∀ ch ∈ (b.Eat true false (some ⟨data, te⟩)).chunks,
      ∀ i, b.BufferSize ≤ i → i + 1 < ch.length →
        ch[i]? ≠ some b.effDelimiter := by
  simp only [Bread.Eat, eatLoop, hwf, hbs, hnd, Bool.true_eq_false,
    if_false, if_neg hbs]
  exact eatLoopF_delim_position b.BufferSize b.effDelimiter false te
    (by omega) (data.length + 1) data (Nat.lt_succ_self _)

/-- C3 amended witness: the amended property at a concrete chunk and
position of a concrete run whose source contains the delimiter. -/
theorem claim_C3_amended_witness :
    ([0, 0, 10] : List Nat) ∈ (Bread.Eat ⟨true, 1, 0, 1, 10, false⟩ true false
        (some ⟨[0, 0, 10], none⟩)).chunks ∧
      (⟨true, 1, 0, 1, 10, false⟩ : Bread).BufferSize ≤ 1 ∧
      1 + 1 < ([0, 0, 10] : List Nat).length ∧
      ([0, 0, 10] : List Nat)[1]? ≠
        some (Bread.effDelimiter ⟨true, 1, 0, 1, 10, false⟩) :=
  ⟨by decide, by decide, by decide,
    claim_C3_amended_delimiter_position ⟨true, 1, 0, 1, 10, false⟩ [0, 0, 10]
      none rfl (by decide) rfl (by decide) [0, 0, 10] (by decide) 1
      (by decide) (by decide)⟩

/-- C4: the claim says cancellation stops the engine from launching new
chunks; the code does not.  In `Bread.eat` the per-iteration check
`select { case <-ctx.Done(): break; default: }` breaks out of the `select`
only, never out of the `for` loop, so with the context cancelled before
ingestion starts the loop still reads and dispatches every chunk of the
source: here a two-record source yields the same two chunks as the
uncancelled run, and the cancellation error is the reported result (after
the drain in the final `select`). -/
theorem claim_C4_cancellation_ignored_by_loop :
    (Bread.Eat ⟨true, 1, 0, 1, 10, false⟩ true true
        (some ⟨[0, 10, 0, 10], none⟩)).chunks = [[0, 10], [0, 10]] ∧
      (Bread.Eat ⟨true, 1, 0, 1, 10, false⟩ true true
          (some ⟨[0, 10, 0, 10], none⟩)).chunks =
        (Bread.Eat ⟨true, 1, 0, 1, 10, false⟩ true false
            (some ⟨[0, 10, 0, 10], none⟩)).chunks ∧
      (Bread.Eat ⟨true, 1, 0, 1, 10, false⟩ true true
          (some ⟨[0, 10, 0, 10], none⟩)).result = some GoErr.ctxCanceled := by
  decide

/-- C5: for every valid configuration and source, `Eat` returns `nil` when
the source is cleanly exhausted (`io.EOF` is not reported as a failure),
and when a read fails with any non-EOF error the loop stops and that
failure value is `Eat`'s result, verbatim. -/
theorem claim_C5_result_semantics (b : Bread) (data : List Nat) (code : Nat)
    (hwf : b.hasWorkerFunc = true) (hbs : b.BufferSize ≠ 0) :
    (b.Eat true false (some ⟨data, none⟩)).result = none ∧
      (b.Eat true false (some ⟨data, some code⟩)).result =
        some (GoErr.ioErr code) := by
  constructor
  · simp only [Bread.Eat, eatLoop, hwf, Bool.true_eq_false, if_false,
      if_neg hbs]
    rw [eatLoopF_exit b.BufferSize b.effDelimiter b.NoDelimiter false none
      (data.length + 1) data (Nat.lt_succ_self _)]
    simp [exitOf]
  · simp only [Bread.Eat, eatLoop, hwf, Bool.true_eq_false, if_false,
      if_neg hbs]
    rw [eatLoopF_exit b.BufferSize b.effDelimiter b.NoDelimiter false
      (some code) (data.length + 1) data (Nat.lt_succ_self _)]
    simp [exitOf]

/-- C5 witness: a clean run returning `nil` and a failing run propagating
its error, on a concrete source. -/
theorem claim_C5_witness :
    (Bread.Eat ⟨true, 1, 0, 2, 10, false⟩ true false
        (some ⟨[1, 2], none⟩)).result = none ∧
      (Bread.Eat ⟨true, 1, 0, 2, 10, false⟩ true false
          (some ⟨[1, 2], some 7⟩)).result = some (GoErr.ioErr 7) :=
  claim_C5_result_semantics ⟨true, 1, 0, 2, 10, false⟩ [1, 2] 7 rfl (by decide)

/-- C6: each absent requirement produces its specific validation error, in
the code's checking order (context, reader, worker function, buffer size),
with no read performed on the source and no chunk dispatched to the
callback. -/
theorem claim_C6_validation_errors (b : Bread) (cz : Bool)
    (src : Option Source) (s : Source) :
    (b.Eat false cz src =
        { chunks := [], reads := 0, result := some GoErr.missingContext }) ∧
      (b.Eat true cz none =
        { chunks := [], reads := 0, result := some GoErr.nilReader }) ∧
      (b.hasWorkerFunc = false → b.Eat true cz (some s) =
        { chunks := [], reads := 0, result := some GoErr.missingWorkerFunc }) ∧
      (b.hasWorkerFunc = true → b.BufferSize = 0 → b.Eat true cz (some s) =
        { chunks := [], reads := 0, result := some GoErr.missingBufferSize }) := by
  refine ⟨by simp [Bread.Eat], by simp [Bread.Eat], ?_, ?_⟩
  · intro hwf
    simp [Bread.Eat, hwf]
  · intro hwf hbs
    simp [Bread.Eat, hwf, hbs]

/-- C6 witness: the four validation failures at concrete inputs. -/
theorem claim_C6_witness :
    (Bread.Eat ⟨false, 0, 0, 0, 0, false⟩ false false (some ⟨[1], none⟩) =
        { chunks := [], reads := 0, result := some GoErr.missingContext }) ∧
      (Bread.Eat ⟨false, 0, 0, 0, 0, false⟩ true false none =
        { chunks := [], reads := 0, result := some GoErr.nilReader }) ∧
      ((⟨false, 0, 0, 0, 0, false⟩ : Bread).hasWorkerFunc = false →
        Bread.Eat ⟨false, 0, 0, 0, 0, false⟩ true false (some ⟨[1], none⟩) =
          { chunks := [], reads := 0, result := some GoErr.missingWorkerFunc }) ∧
      ((⟨false, 0, 0, 0, 0, false⟩ : Bread).hasWorkerFunc = true →
        (⟨false, 0, 0, 0, 0, false⟩ : Bread).BufferSize = 0 →
        Bread.Eat ⟨false, 0, 0, 0, 0, false⟩ true false (some ⟨[1], none⟩) =
          { chunks := [], reads := 0, result := some GoErr.missingBufferSize }) :=
  claim_C6_validation_errors ⟨false, 0, 0, 0, 0, false⟩ false
    (some ⟨[1], none⟩) ⟨[1], none⟩

/-- C7: with `noDelimiter = true` and a valid configuration, every chunk
delivered to the callback except possibly the last has length exactly
`bufferSize`. -/
theorem claim_C7_fixed_size_chunks (b : Bread) (data : List Nat)
    (te : Option Nat) (hwf : b.hasWorkerFunc = true)
    (hbs : b.BufferSize ≠ 0) (hnd : b.NoDelimiter = true) :
    ∀ ch ∈ ((b.Eat true false (some ⟨data, te⟩)).chunks).dropLast,
      ch.length = b.BufferSize := by
  simp only [Bread.Eat, eatLoop, hwf, hnd, Bool.true_eq_false, if_false,
    if_neg hbs]
  exact eatLoopF_noDelim_lengths b.BufferSize b.effDelimiter false te
    (by omega) (data.length + 1) data (Nat.lt_succ_self _)

/-- C7 witness: a concrete non-final chunk of a concrete run has length
exactly `bufferSize`. -/
theorem claim_C7_witness :
    ([1, 2] : List Nat) ∈ ((Bread.Eat ⟨true, 1, 0, 2, 10, true⟩ true false
        (some ⟨[1, 2, 3, 4, 5], none⟩)).chunks).dropLast ∧
      ([1, 2] : List Nat).length = (⟨true, 1, 0, 2, 10, true⟩ : Bread).BufferSize :=
  ⟨by decide,
    claim_C7_fixed_size_chunks ⟨true, 1, 0, 2, 10, true⟩ [1, 2, 3, 4, 5] none
      rfl (by decide) rfl [1, 2] (by decide)⟩

/-- C8: with `bufferSize = 1`, `noDelimiter = false`, and a 5-byte source
containing no occurrence of the delimiter, `Eat` delivers exactly one
chunk, and that chunk contains all 5 source bytes (the delimiter's absence
causes the whole remainder to be consumed into one chunk). -/
theorem claim_C8_five_bytes_one_chunk (b : Bread) (data : List Nat)
    (hwf : b.hasWorkerFunc = true) (hbs : b.BufferSize = 1)
    (hnd : b.NoDelimiter = false) (hlen : data.length = 5)
    (hocc : b.effDelimiter ∉ data) :
    (b.Eat true false (some ⟨data, none⟩)).chunks = [data] := by
  have hbs0 : b.BufferSize ≠ 0 := by omega
  have hne : data ≠ [] := by
    intro hnil
    rw [hnil] at hlen
    simp at hlen
  simp only [Bread.Eat, eatLoop, hwf, hnd, Bool.true_eq_false, if_false,
    if_neg hbs0]
  exact eatLoopF_no_delim_single_chunk b.BufferSize b.effDelimiter false data
    hne hocc (data.length + 1) (Nat.lt_succ_self _)

/-- C8 witness: a concrete 5-byte delimiter-free source delivered as one
chunk. -/
theorem claim_C8_witness :
    (Bread.Eat ⟨true, 1, 0, 1, 10, false⟩ true false
        (some ⟨[1, 2, 3, 4, 5], none⟩)).chunks = [[1, 2, 3, 4, 5]] :=
  claim_C8_five_bytes_one_chunk ⟨true, 1, 0, 1, 10, false⟩ [1, 2, 3, 4, 5]
    rfl rfl rfl (by decide) (by decide)

/-- C9: a configuration whose `Delimiter` is explicitly the byte 0 (NUL)
behaves identically, on every input, to the same configuration with the
newline default: `Eat`'s defaulting step `if b.Delimiter == 0` cannot tell
NUL from unset, so NUL can never be used as the delimiter. -/
theorem claim_C9_nul_delimiter_replaced (b : Bread) (hasCtx cz : Bool)
    (src : Option Source) (hd : b.Delimiter = 0) :
    b.Eat hasCtx cz src =
      Bread.Eat { b with Delimiter := DefaultDelimiter } hasCtx cz src := by
  simp [Bread.Eat, Bread.effDelimiter, hd, DefaultDelimiter]

/-- C9 witness: NUL-delimiter and newline-delimiter configurations agree on
a concrete run. -/
theorem claim_C9_witness :
    Bread.Eat ⟨true, 1, 0, 2, 0, false⟩ true false (some ⟨[1, 10, 2], none⟩) =
      Bread.Eat { (⟨true, 1, 0, 2, 0, false⟩ : Bread) with
          Delimiter := DefaultDelimiter } true false (some ⟨[1, 10, 2], none⟩) :=
  claim_C9_nul_delimiter_replaced ⟨true, 1, 0, 2, 0, false⟩ true false
    (some ⟨[1, 10, 2], none⟩) rfl

/-- C10: with a valid configuration and an empty source (the first read
reports end-of-source), `Eat` invokes the callback zero times and returns
`nil`. -/
theorem claim_C10_empty_source (b : Bread)
    (hwf : b.hasWorkerFunc = true) (hbs : b.BufferSize ≠ 0) :
    (b.Eat true false (some ⟨[], none⟩)).chunks = [] ∧
      (b.Eat true false (some ⟨[], none⟩)).result = none := by
  simp [Bread.Eat, eatLoop, hwf, if_neg hbs, eatLoopF, exitOf]

/-- C10 witness: the empty source at a concrete configuration. -/
theorem claim_C10_witness :
    (Bread.Eat ⟨true, 1, 0, 2, 10, false⟩ true false
        (some ⟨[], none⟩)).chunks = [] ∧
      (Bread.Eat ⟨true, 1, 0, 2, 10, false⟩ true false
          (some ⟨[], none⟩)).result = none :=
  claim_C10_empty_source ⟨true, 1, 0, 2, 10, false⟩ rfl (by decide)

section Examples

example :
    Bread.Eat ⟨true, 1, 0, 2, 10, false⟩ true false (some ⟨[10, 10], none⟩) =
      { chunks := [[10, 10]], reads := 2, result := none } := by
  decide

example :
    Bread.Eat ⟨true, 16, 0, 1, 10, false⟩ true false
        (some ⟨[1, 2, 3, 4, 5], none⟩) =
      { chunks := [[1, 2, 3, 4, 5]], reads := 2, result := none } := by
  decide

example :
    Bread.Eat ⟨true, 1, 0, 2, 10, true⟩ true false
        (some ⟨[1, 2, 3, 4, 5], none⟩) =
      { chunks := [[1, 2], [3, 4], [5]], reads := 4, result := none } := by
  decide

end Examples
